import Mathlib

/-
  Verification of the ssync one-way directory mirroring tool (src/main.rs).

  The development shallowly embeds the decision engine, the execution engine,
  the directory loader and the path filter.  Filesystem primitives
  (canonicalize, copy, remove, metadata, read_dir) are modelled over an
  abstract filesystem mapping absolute path strings to entries; a file entry
  carries its last-access time, last-modification time and byte content.
  Machine details that the program never relies on (inode numbers, permission
  bits) are omitted.  All definitions are executable so that every concrete
  scenario below evaluates by kernel reduction.
-/

set_option linter.unusedVariables false

/-! ## Path helpers

Paths are modelled as strings with the forward slash as separator.  The
helpers below model Path::join, Path::file_name, Path::parent and
pathdiff::diff_paths for canonical absolute paths.  They recurse over the
character list so that they reduce inside the kernel. -/

/-- Split a character list on the slash character. -/
def splitOnSlash : List Char → List (List Char)
  | [] => [[]]
  | c :: rest =>
    let r := splitOnSlash rest
    if c = '/' then [] :: r
    else match r with
      | [] => [[c]]
      | g :: gs => (c :: g) :: gs

/-- Rejoin character groups with slashes. -/
def joinSlash : List (List Char) → List Char
  | [] => []
  | [g] => g
  | g :: gs => g ++ '/' :: joinSlash gs

/-- Model of Path::file_name: the last path component. -/
def basename (p : String) : String :=
  String.mk ((splitOnSlash p.toList).getLastD [])

/-- Model of Path::parent: the path without its last component. -/
def dirname (p : String) : String :=
  String.mk (joinSlash (splitOnSlash p.toList).dropLast)

/-- Model of Path::join for a directory and a child name. -/
def joinPath (dir name : String) : String := dir ++ "/" ++ name

/-- Model of PathBuf::push with a relative path (empty relative path is a
no-op, matching pushing an empty component list). -/
def pushPath (base rel : String) : String :=
  if rel = "" then base else base ++ "/" ++ rel

/-- Model of pathdiff::diff_paths for a canonical absolute path below the
root: the path relative to the root (empty for the root itself). -/
def relative_path_of (abs root : String) : String :=
  if abs = root then "" else String.mk (abs.toList.drop (root.toList.length + 1))

/-! ## Association-list model of std::collections::HashMap

The program stores decision items and name indices in hash maps.  We model a
map as an association list without duplicate keys in the program-produced
values; insertion replaces an existing binding, exactly as HashMap::insert,
and extension folds insertion over the right operand, exactly as
HashMap::extend.  Iteration order of a HashMap is unspecified; the model
fixes it to list order. -/

/-- HashMap::insert: replace the binding if the key is present, else append. -/
def mapInsert {α : Type} (m : List (String × α)) (k : String) (v : α) : List (String × α) :=
  if m.any (fun p => p.1 == k) then
    m.map (fun p => if p.1 == k then (k, v) else p)
  else m ++ [(k, v)]

/-- HashMap::get. -/
def mapLookup {α : Type} (m : List (String × α)) (k : String) : Option α :=
  match m with
  | [] => none
  | p :: rest => if p.1 == k then some p.2 else mapLookup rest k

/-- HashMap::extend: insert every binding of the second map into the first. -/
def mapExtend {α : Type} (m : List (String × α)) : List (String × α) → List (String × α)
  | [] => m
  | p :: rest => mapExtend (mapInsert m p.1 p.2) rest

/-- Collect an iterator of pairs into a HashMap. -/
def mapFromList {α : Type} (l : List (String × α)) : List (String × α) :=
  mapExtend [] l

/-- The keys of a map, in order. -/
def keysOf {α : Type} (m : List (String × α)) : List String :=
  m.map (fun p => p.1)

/-- Boolean key membership. -/
def keyMem (ks : List String) (k : String) : Bool :=
  ks.any (fun x => x == k)

/-- The effect of one insertion on the key list. -/
def insKey (ks : List String) (k : String) : List String :=
  if keyMem ks k then ks else ks ++ [k]

/-- The effect of map extension on the key list. -/
def extKeys (ks : List String) : List String → List String
  | [] => ks
  | k :: rest => extKeys (insKey ks k) rest

/-- No duplicate keys, as a Boolean. -/
def nodupB : List String → Bool
  | [] => true
  | k :: ks => !(keyMem ks k) && nodupB ks

/-- No key of the second map occurs in the first, as a Boolean. -/
def disjointKeysB {α : Type} (m o : List (String × α)) : Bool :=
  (keysOf o).all (fun k => !(keyMem (keysOf m) k))

/-- No duplicate keys in a map, as a Boolean. -/
def nodupKeysB {α : Type} (o : List (String × α)) : Bool :=
  nodupB (keysOf o)

/-! ## Filesystem model -/

/-- The observable data of a regular file: last-access time,
last-modification time (both abstract ticks) and byte content. -/
structure FileData where
  atime : Nat
  mtime : Nat
  content : List Nat
deriving DecidableEq

/-- A filesystem entry: a regular file, or a directory listing its
immediate child names. -/
inductive Entry where
  | file (data : FileData)
  | dir (children : List String)
deriving DecidableEq

/-- A filesystem: a total map from absolute path strings to entries. -/
abbrev Fs := String → Option Entry

/-- A mutable world for the execution engine: the filesystem plus the
current clock tick used for timestamps of fresh copies. -/
structure World where
  fs : Fs
  now : Nat

/-- Functional update of one path. -/
def World.set (w : World) (p : String) (e : Option Entry) : World :=
  ⟨fun q => if q = p then e else w.fs q, w.now⟩

/-! ## Configuration data model (SyncPath, SyncContext) -/

/-- Model of a compiled regex: its is_match predicate on path strings. -/
abbrev RegexPat := String → Bool

/-- One side of the configuration.  Source fields path, include, exclude;
the pattern lists are renamed include_regs and exclude_regs because the
source field names collide with Lean keywords. -/
structure SyncPath where
  path : String
  include_regs : List RegexPat
  exclude_regs : List RegexPat

/-- The shared context.  Source fields from, to, recursive; from_side and
to_side stand for from and to. -/
structure SyncContext where
  from_side : SyncPath
  to_side : SyncPath
  recursive : Bool

/-- enum OperateDirection. -/
inductive OperateDirection where
  | FROM
  | TO
deriving DecidableEq

/-- The SyncPath of the given side. -/
def SyncContext.side (ctx : SyncContext) : OperateDirection → SyncPath
  | OperateDirection.FROM => ctx.from_side
  | OperateDirection.TO => ctx.to_side

/-! ## FileInfo and DirectoryInfo -/

/-- struct FileInfo. -/
structure FileInfo where
  name : String
  root : String
  absolute_dir : String
deriving DecidableEq

/-- FileInfo::absolute_dir_with_self. -/
def FileInfo.absolute_dir_with_self (fi : FileInfo) : String :=
  joinPath fi.absolute_dir fi.name

/-- FileInfo::relative_path. -/
def FileInfo.relative_path (fi : FileInfo) : String :=
  relative_path_of fi.absolute_dir_with_self fi.root

/-- FileInfo::relative_path_without_file: the source diffs the full path
against the root and drops the file name, which for canonical paths equals
diffing the containing directory against the root. -/
def FileInfo.relative_path_without_file (fi : FileInfo) : String :=
  relative_path_of fi.absolute_dir fi.root

/-- struct DirectoryInfo (recursive, hence an inductive). -/
inductive DirectoryInfo where
  | mk (root : String) (absolute_dir : String)
       (sub_dirs : List DirectoryInfo) (files : List FileInfo)

/-- Field root. -/
def DirectoryInfo.root : DirectoryInfo → String
  | .mk r _ _ _ => r

/-- Field absolute_dir. -/
def DirectoryInfo.absolute_dir : DirectoryInfo → String
  | .mk _ a _ _ => a

/-- Field sub_dirs. -/
def DirectoryInfo.sub_dirs : DirectoryInfo → List DirectoryInfo
  | .mk _ _ s _ => s

/-- Field files. -/
def DirectoryInfo.files : DirectoryInfo → List FileInfo
  | .mk _ _ _ f => f

/-- DirectoryInfo::create. -/
def DirectoryInfo.create (root absolute_dir : String) : DirectoryInfo :=
  .mk root absolute_dir [] []

/-- DirectoryInfo::name. -/
def DirectoryInfo.name (di : DirectoryInfo) : String :=
  basename di.absolute_dir

/-- DirectoryInfo::to_file_info. -/
def DirectoryInfo.to_file_info (di : DirectoryInfo) : FileInfo :=
  ⟨di.name, di.root, dirname di.absolute_dir⟩

/-- DirectoryInfo::relative_path. -/
def DirectoryInfo.relative_path (di : DirectoryInfo) : String :=
  relative_path_of di.absolute_dir di.root

/-- Push a subdirectory (sub_dirs.push). -/
def DirectoryInfo.push_sub (di : DirectoryInfo) (s : DirectoryInfo) : DirectoryInfo :=
  .mk di.root di.absolute_dir (di.sub_dirs ++ [s]) di.files

/-- Push a file (files.push). -/
def DirectoryInfo.push_file (di : DirectoryInfo) (f : FileInfo) : DirectoryInfo :=
  .mk di.root di.absolute_dir di.sub_dirs (di.files ++ [f])

/-! ## Path filter: DirectoryInfo::_check_include_and_exclude -/

/-- The early-returning for loop over a pattern list: true as soon as one
pattern matches the path. -/
def first_match (regs : List RegexPat) (p : String) : Bool :=
  match regs with
  | [] => false
  | r :: rest => if r p then true else first_match rest p

/-- DirectoryInfo::_check_include_and_exclude, both direction branches
literally as in the source. -/
def _check_include_and_exclude (abs_path : String) (ctx : SyncContext)
    (direction : OperateDirection) : Bool :=
  match direction with
  | OperateDirection.FROM =>
    if first_match ctx.from_side.include_regs abs_path then true
    else if !ctx.from_side.include_regs.isEmpty then false
    else if first_match ctx.from_side.exclude_regs abs_path then false
    else true
  | OperateDirection.TO =>
    if first_match ctx.to_side.include_regs abs_path then true
    else if !ctx.to_side.include_regs.isEmpty then false
    else if first_match ctx.to_side.exclude_regs abs_path then false
    else true

/-! ## File comparison: is_same_file and check_has_updated -/

/-- is_same_file: size check first, then byte-by-byte comparison of the two
zipped byte streams. -/
def is_same_file (f1 f2 : FileData) : Bool :=
  if f1.content.length ≠ f2.content.length then false
  else (f1.content.zip f2.content).all (fun p => p.1 == p.2)

/-- FileInfo::file / File::open: read the file data at the absolute path;
opening fails (panics in the source) when no regular file is there. -/
def fileOpen (fs : Fs) (fi : FileInfo) : Option FileData :=
  match fs fi.absolute_dir_with_self with
  | some (Entry.file d) => some d
  | _ => none

/-- DecisionTask::check_has_updated: the two last_write_time values differ
AND the byte contents differ. -/
def check_has_updated (fs : Fs) (src dest : FileInfo) : Option Bool := do
  let s ← fileOpen fs src
  let d ← fileOpen fs dest
  some ((s.mtime != d.mtime) && !(is_same_file s d))

/-! ## Directory loader: DirectoryInfo::load_all_file -/

/-- Model of fs::canonicalize: resolves an existing path to canonical form
(paths in the model are already canonical, so the identity) and fails with
an IO error when the path does not exist. -/
def canonicalize (fs : Fs) (p : String) : Option String :=
  if (fs p).isSome then some p else none

/-- The for loop over fs::read_dir entries inside load_all_file.  loadSub is
the recursive invocation of load_all_file at one less fuel. -/
def load_entries (fs : Fs) (ctx : SyncContext) (direction : OperateDirection)
    (recursive : Bool) (rootC canon : String)
    (loadSub : String → Option DirectoryInfo) :
    List String → DirectoryInfo → Option DirectoryInfo
  | [], di => some di
  | name :: rest, di =>
    let abs := joinPath canon name
    if !(_check_include_and_exclude abs ctx direction) then
      load_entries fs ctx direction recursive rootC canon loadSub rest di
    else
      match fs abs with
      | some (Entry.dir _) => do
        let sub ← if recursive then loadSub abs
                  else some (DirectoryInfo.create rootC abs)
        load_entries fs ctx direction recursive rootC canon loadSub rest (di.push_sub sub)
      | _ =>
        load_entries fs ctx direction recursive rootC canon loadSub rest
          (di.push_file ⟨name, rootC, canon⟩)

/-- DirectoryInfo::load_all_file.  The fuel argument bounds recursion depth
and is a modelling artefact (the source recurses on the finite on-disk tree);
any fuel at least the tree depth gives the source behaviour.  Canonicalize
failures and the assert on an empty root propagate as none, matching the
question-mark operator and the panic. -/
def load_all_file (fs : Fs) :
    Nat → String → Bool → String → SyncContext → OperateDirection → Option DirectoryInfo
  | 0, _, _, _, _, _ => none
  | Nat.succ fuel, absolute_path, recursive, root_dir, ctx, direction => do
    let canon ← canonicalize fs absolute_path
    let rootC ← canonicalize fs root_dir
    let di := DirectoryInfo.create rootC canon
    match fs canon with
    | some (Entry.dir names) =>
      if recursive && rootC.isEmpty then none
      else (load_entries fs ctx direction recursive rootC canon
        (fun p => load_all_file fs fuel p recursive rootC ctx direction) names di)
    | _ => some di

/-- get_dict_info: the two loader invocations (source side, destination
side), both with the recursion flag literally true.  The source runs them on
two threads and joins; the join makes the sequential model equivalent.
Either load failing makes the whole call fail (expect panics). -/
def get_dict_info (fuel : Nat) (fs : Fs) (ctx : SyncContext) :
    Option (DirectoryInfo × DirectoryInfo) := do
  let src_dict_info ← load_all_file fs fuel ctx.from_side.path true ctx.from_side.path ctx OperateDirection.FROM
  let to_dict_info ← load_all_file fs fuel ctx.to_side.path true ctx.to_side.path ctx OperateDirection.TO
  some (src_dict_info, to_dict_info)

/-! ## Decision engine -/

/-- enum FileAction. -/
inductive FileAction where
  | ADD
  | DEL
  | UPDATE
deriving DecidableEq

/-- struct DecisionResultItem. -/
structure DecisionResultItem where
  action : FileAction
  src_file_info : Option FileInfo
  dest_file_info : FileInfo
deriving DecidableEq

/-- struct DecisionResult: three maps from a relative directory path to the
items found at that directory level. -/
structure DecisionResult where
  add_items : List (String × List DecisionResultItem)
  del_items : List (String × List DecisionResultItem)
  update_items : List (String × List DecisionResultItem)
deriving DecidableEq

/-- The item count of one of the three maps. -/
def items_count (m : List (String × List DecisionResultItem)) : Nat :=
  (m.map (fun p => p.2.length)).sum

/-- DecisionResult::total_count (accumulated over add, del, update). -/
def DecisionResult.total_count (d : DecisionResult) : Nat :=
  items_count d.add_items + items_count d.del_items + items_count d.update_items

/-- DecisionResult::merge: HashMap::extend on each of the three maps. -/
def DecisionResult.merge (d other : DecisionResult) : DecisionResult :=
  ⟨mapExtend d.add_items other.add_items,
   mapExtend d.del_items other.del_items,
   mapExtend d.update_items other.update_items⟩

/-- DecisionResult::is_empty. -/
def DecisionResult.is_empty (d : DecisionResult) : Bool :=
  d.total_count == 0

/-- The key lists of the three maps of a DecisionResult. -/
def DecisionResult.keys3 (d : DecisionResult) : List String × List String × List String :=
  (keysOf d.add_items, keysOf d.del_items, keysOf d.update_items)

/-- DecisionTask::gene_add_dest_file_info: synthesize the destination
FileInfo by pushing the relative source directory onto the destination
root. -/
def gene_add_dest_file_info (to_root : String) (src : FileInfo) : FileInfo :=
  ⟨src.name, to_root, pushPath to_root src.relative_path_without_file⟩

/-- DecisionTask::find_add.  Directories are considered only when the
context is recursive; files always.  Membership tests go through the name
maps built in DecisionTask::new. -/
def find_add (ctx : SyncContext) (from_di to_di : DirectoryInfo) : List DecisionResultItem :=
  let to_dict_names := mapFromList (to_di.sub_dirs.map (fun x => (x.name, x)))
  let to_file_names := mapFromList (to_di.files.map (fun x => (x.name, x)))
  let dir_adds :=
    if ctx.recursive then
      from_di.sub_dirs.filterMap (fun it =>
        if (mapLookup to_dict_names it.name).isSome then none
        else some ⟨FileAction.ADD, some it.to_file_info,
                   gene_add_dest_file_info to_di.root it.to_file_info⟩)
    else []
  let file_adds :=
    from_di.files.filterMap (fun it =>
      if (mapLookup to_file_names it.name).isSome then none
      else some ⟨FileAction.ADD, some it, gene_add_dest_file_info to_di.root it⟩)
  dir_adds ++ file_adds

/-- DecisionTask::find_del, symmetric to find_add. -/
def find_del (ctx : SyncContext) (from_di to_di : DirectoryInfo) : List DecisionResultItem :=
  let from_dict_names := mapFromList (from_di.sub_dirs.map (fun x => (x.name, x)))
  let from_file_names := mapFromList (from_di.files.map (fun x => (x.name, x)))
  let dir_dels :=
    if ctx.recursive then
      to_di.sub_dirs.filterMap (fun it =>
        if (mapLookup from_dict_names it.name).isSome then none
        else some ⟨FileAction.DEL, none, it.to_file_info⟩)
    else []
  let file_dels :=
    to_di.files.filterMap (fun it =>
      if (mapLookup from_file_names it.name).isSome then none
      else some ⟨FileAction.DEL, none, it⟩)
  dir_dels ++ file_dels

/-- DecisionTask::find_update: for every destination file whose name also
exists on the source side, emit an UPDATE item when check_has_updated says
so.  Opening a file can fail, hence the Option. -/
def find_update (fs : Fs) (from_di to_di : DirectoryInfo) : Option (List DecisionResultItem) :=
  let from_file_names := mapFromList (from_di.files.map (fun x => (x.name, x)))
  go from_file_names to_di.files []
where
  /-- The for loop over the destination files. -/
  go (from_file_names : List (String × FileInfo)) :
      List FileInfo → List DecisionResultItem → Option (List DecisionResultItem)
    | [], items => some items
    | it :: rest, items =>
      match mapLookup from_file_names it.name with
      | none => go from_file_names rest items
      | some src => do
        let b ← check_has_updated fs src it
        go from_file_names rest
          (if b then items ++ [⟨FileAction.UPDATE, some src, it⟩] else items)

/-- DecisionTask::find_both_sub_dirs: the source subdirectories whose name
also exists on the destination side, paired with the destination node. -/
def find_both_sub_dirs (from_di to_di : DirectoryInfo) :
    List (DirectoryInfo × DirectoryInfo) :=
  let to_dict_names := mapFromList (to_di.sub_dirs.map (fun x => (x.name, x)))
  from_di.sub_dirs.filterMap (fun it =>
    (mapLookup to_dict_names it.name).map (fun d => (it, d)))

/-- The for loop at the end of make_decision: recurse into every matched
subdirectory pair (md is the recursive make_decision at one less fuel) and
merge each sub-result into the accumulated result. -/
def decide_subs (md : DirectoryInfo → DirectoryInfo → Option DecisionResult) :
    List (DirectoryInfo × DirectoryInfo) → DecisionResult → Option DecisionResult
  | [], acc => some acc
  | p :: rest, acc => do
    let sub ← md p.1 p.2
    decide_subs md rest (acc.merge sub)

/-- DecisionTask::make_decision.  The fuel bounds recursion depth (modelling
artefact; any fuel at least the tree depth gives the source behaviour).
Note that the recursion into matched subdirectory pairs is not guarded by
ctx.recursive in the source. -/
def make_decision (fs : Fs) (ctx : SyncContext) :
    Nat → DirectoryInfo → DirectoryInfo → Option DecisionResult
  | 0, _, _ => none
  | Nat.succ fuel, from_di, to_di => do
    let rp := from_di.relative_path
    let upd ← find_update fs from_di to_di
    let init : DecisionResult :=
      ⟨mapInsert [] rp (find_add ctx from_di to_di),
       mapInsert [] rp (find_del ctx from_di to_di),
       mapInsert [] rp upd⟩
    decide_subs (fun a b => make_decision fs ctx fuel a b)
      (find_both_sub_dirs from_di to_di) init

/-! ## Execution engine

The execution engine is modelled as a trace producer: every item, in the
order the source executes them, appends one log entry holding the printed
progress label and the filesystem operation the item triggers.  The shared
AtomicUsize counter is the processed field; fetch_add returns the previous
value and increments, exactly as in the source. -/

/-- The filesystem operation one executed item performs: copy_recursively
with the overwrite flag (false for the add task, true for the update task),
or removal (the del task). -/
inductive ExecOp where
  | copy (item : DecisionResultItem) (overwrite : Bool)
  | remove (item : DecisionResultItem)
deriving DecidableEq

/-- True for an add-task operation. -/
def ExecOp.isAddCopy : ExecOp → Bool
  | .copy _ false => true
  | _ => false

/-- True for an update-task operation. -/
def ExecOp.isUpdateCopy : ExecOp → Bool
  | .copy _ true => true
  | _ => false

/-- True for a del-task operation. -/
def ExecOp.isRemove : ExecOp → Bool
  | .remove _ => true
  | _ => false

/-- The state threaded through execution: the progress counter
(_processed_count) and the log of executed items. -/
structure ExecState where
  processed : Nat
  log : List (String × ExecOp)
deriving DecidableEq

/-- The progress label printed for one item. -/
def progress_label (cnt total : Nat) : String :=
  Nat.repr cnt ++ "/" ++ Nat.repr total

/-- DecisionExecuteTask::count_and_progress_prefix (renamed: the last word
of the source name is a reserved token here): fetch_add(1) returns the
previous counter value, which is formatted over the total. -/
def count_and_progress (total : Nat) (st : ExecState) : String × ExecState :=
  (progress_label st.processed total, ⟨st.processed + 1, st.log⟩)

/-- DecisionExecuteTask::log_progress followed by the item execution:
appends the log entry for one item. -/
def log_progress (total : Nat) (op : ExecOp) (st : ExecState) : ExecState :=
  let r := count_and_progress total st
  ⟨r.2.processed, r.2.log ++ [(r.1, op)]⟩

/-- All items of one of the three maps, in iteration order. -/
def itemsOfMap (m : List (String × List DecisionResultItem)) : List DecisionResultItem :=
  (m.map (fun p => p.2)).flatten

/-- The doubly nested for loop of one execute task. -/
def run_items (total : Nat) (mk : DecisionResultItem → ExecOp) :
    List DecisionResultItem → ExecState → ExecState
  | [], st => st
  | it :: rest, st => run_items total mk rest (log_progress total (mk it) st)

/-- DecisionExecuteTask::execute_add_task: copy without overwrite. -/
def execute_add_task (d : DecisionResult) (total : Nat) (st : ExecState) : ExecState :=
  run_items total (fun it => ExecOp.copy it false) (itemsOfMap d.add_items) st

/-- DecisionExecuteTask::execute_update_task: copy with overwrite. -/
def execute_update_task (d : DecisionResult) (total : Nat) (st : ExecState) : ExecState :=
  run_items total (fun it => ExecOp.copy it true) (itemsOfMap d.update_items) st

/-- DecisionExecuteTask::execute_del_task: removal. -/
def execute_del_task (d : DecisionResult) (total : Nat) (st : ExecState) : ExecState :=
  run_items total (fun it => ExecOp.remove it) (itemsOfMap d.del_items) st

/-- DecisionExecuteTask::execute: the add task, then the update task, then
the del task, with the total computed up front in DecisionExecuteTask::new. -/
def DecisionExecuteTask.execute (d : DecisionResult) : ExecState :=
  execute_del_task d d.total_count
    (execute_update_task d d.total_count
      (execute_add_task d d.total_count ⟨0, []⟩))

/-! ## Filesystem primitives used by the execution engine

These model the trusted std::fs and filetime calls.  fs::copy transfers the
byte content and stamps the destination with the current clock (it does not
preserve timestamps; that is what the separate copy_time call is for). -/

/-- Path::is_file. -/
def is_file (w : World) (p : String) : Bool :=
  match w.fs p with
  | some (Entry.file _) => true
  | _ => false

/-- Path::exists. -/
def exists_path (w : World) (p : String) : Bool :=
  (w.fs p).isSome

/-- fs::remove_file: fails on a directory or a missing path. -/
def remove_file (w : World) (p : String) : Option World :=
  match w.fs p with
  | some (Entry.file _) => some (w.set p none)
  | _ => none

/-- fs::copy: copies the byte content of a regular file; the destination
receives the current clock as both timestamps.  Fails when the source is
not a regular file or the destination is an existing directory. -/
def fs_copy (w : World) (src dst : String) : Option World :=
  match w.fs src with
  | some (Entry.file d) =>
    match w.fs dst with
    | some (Entry.dir _) => none
    | _ => some (w.set dst (some (Entry.file ⟨w.now, w.now, d.content⟩)))
  | _ => none

/-- fs::create_dir: fails when the path already exists. -/
def create_dir (w : World) (p : String) : Option World :=
  match w.fs p with
  | none => some (w.set p (some (Entry.dir [])))
  | some _ => none

/-- fs::read_dir: the child names of a directory. -/
def read_dir (w : World) (p : String) : Option (List String) :=
  match w.fs p with
  | some (Entry.dir names) => some names
  | _ => none

/-- copy_time: fs::metadata on the source then
filetime::set_file_times on the destination, transferring the last-access
and last-modification times. -/
def copy_time (w : World) (src dst : String) : Option World :=
  match w.fs src with
  | some (Entry.file d) =>
    match w.fs dst with
    | some (Entry.file d2) =>
      some (w.set dst (some (Entry.file ⟨d.atime, d.mtime, d2.content⟩)))
    | _ => none
  | _ => none

/-- The for loop over fs::read_dir entries inside the directory branch of
copy_recursively: plain fs::copy for file entries (no copy_time call),
recursion for the rest.  copySub is copy_recursively at one less fuel. -/
def copy_entries (copySub : World → String → String → Option World)
    (src dst : String) : List String → World → Option World
  | [], w => some w
  | name :: rest, w =>
    let ep := joinPath src name
    let dp := joinPath dst name
    match w.fs ep with
    | some (Entry.file _) => do
      let w2 ← fs_copy w ep dp
      copy_entries copySub src dst rest w2
    | _ => do
      let w2 ← copySub w ep dp
      copy_entries copySub src dst rest w2

/-- copy_recursively.  For a regular source file: remove-copy-copy_time when
the destination exists and overwrite is set, copy-copy_time when the
destination is absent, and a no-op otherwise.  For a directory source:
create the destination if absent (no timestamp handling on directories),
then walk the entries.  Fuel bounds recursion depth (modelling artefact). -/
def copy_recursively : Nat → World → String → String → Bool → Option World
  | 0, _, _, _, _ => none
  | Nat.succ fuel, w, src, dst, overwrite =>
    if is_file w src then
      if exists_path w dst && overwrite then do
        let w1 ← remove_file w dst
        let w2 ← fs_copy w1 src dst
        copy_time w2 src dst
      else if !exists_path w dst then do
        let w2 ← fs_copy w src dst
        copy_time w2 src dst
      else some w
    else do
      let w1 ← if !exists_path w dst then create_dir w dst else some w
      let names ← read_dir w1 src
      copy_entries (fun wx a b => copy_recursively fuel wx a b overwrite)
        src dst names w1

/-! ## Concrete scenarios

Small concrete filesystems, trees and decision results used to evaluate the
embedded program on explicit inputs. -/

/-- Source file of the mtime-differs-content-equal pair. -/
def dataC1s : FileData := ⟨10, 1, [65]⟩

/-- Destination file of the mtime-differs-content-equal pair. -/
def dataC1d : FileData := ⟨10, 2, [65]⟩

/-- FileInfo of the source file a.txt under root /s. -/
def srcC1 : FileInfo := ⟨"a.txt", "/s", "/s"⟩

/-- FileInfo of the destination file a.txt under root /d. -/
def destC1 : FileInfo := ⟨"a.txt", "/d", "/d"⟩

/-- Filesystem holding the two a.txt files. -/
def fsC1 : Fs := fun p =>
  if p = "/s/a.txt" then some (Entry.file dataC1s)
  else if p = "/d/a.txt" then some (Entry.file dataC1d)
  else none

/-- Source file with mtime equal to the destination but different bytes. -/
def dataC1ws : FileData := ⟨0, 5, [1, 2]⟩

/-- Destination file with mtime equal to the source but different bytes. -/
def dataC1wd : FileData := ⟨9, 5, [3]⟩

/-- Filesystem holding the equal-mtime pair. -/
def fsC1w : Fs := fun p =>
  if p = "/s/a.txt" then some (Entry.file dataC1ws)
  else if p = "/d/a.txt" then some (Entry.file dataC1wd)
  else none

/-- Source file for the C7 scenario: mtime 1, content byte 7. -/
def dataC7s : FileData := ⟨0, 1, [7]⟩

/-- Destination file for the C7 scenario: mtime 2, same content. -/
def dataC7d : FileData := ⟨0, 2, [7]⟩

/-- Filesystem holding the C7 pair. -/
def fsC7 : Fs := fun p =>
  if p = "/s/a.txt" then some (Entry.file dataC7s)
  else if p = "/d/a.txt" then some (Entry.file dataC7d)
  else none

/-- A context with no patterns and both roots configured. -/
def ctxEmpty : SyncContext := ⟨⟨"/src", [], []⟩, ⟨"/dst", [], []⟩, true⟩

/-- Filesystem for the loader scenarios: an existing source directory and an
existing regular (non-directory) file, and nothing at /dst. -/
def fsC3 : Fs := fun p =>
  if p = "/src" then some (Entry.dir [])
  else if p = "/file.txt" then some (Entry.file ⟨0, 0, []⟩)
  else none

/-- Non-recursive context for the decision scenario. -/
def ctxC4 : SyncContext := ⟨⟨"/s", [], []⟩, ⟨"/d", [], []⟩, false⟩

/-- Source tree: root /s containing subdirectory sub with file b.txt. -/
def fromC4 : DirectoryInfo :=
  .mk "/s" "/s" [.mk "/s" "/s/sub" [] [⟨"b.txt", "/s", "/s/sub"⟩]] []

/-- Destination tree: root /d containing an empty subdirectory sub. -/
def toC4 : DirectoryInfo :=
  .mk "/d" "/d" [.mk "/d" "/d/sub" [] []] []

/-- Filesystem for the decision scenario (never read: no common files). -/
def fsC4 : Fs := fun _ => none

/-- World for the directory-copy scenario: directory /s with one file a
(atime 5, mtime 6), clock at 99. -/
def wC5 : World :=
  ⟨fun p =>
    if p = "/s" then some (Entry.dir ["a"])
    else if p = "/s/a" then some (Entry.file ⟨5, 6, [1]⟩)
    else none, 99⟩

/-- World for the single-file copy witness: one file /x, clock at 50. -/
def wC5w : World :=
  ⟨fun p => if p = "/x" then some (Entry.file ⟨3, 4, [7]⟩) else none, 50⟩

/-- File data of /x in wC5w. -/
def dC5w : FileData := ⟨3, 4, [7]⟩

/-- A first decision item. -/
def itemC8a : DecisionResultItem :=
  ⟨FileAction.ADD, some ⟨"a", "/s", "/s"⟩, ⟨"a", "/d", "/d"⟩⟩

/-- A second, different decision item. -/
def itemC8b : DecisionResultItem :=
  ⟨FileAction.ADD, some ⟨"b", "/s", "/s"⟩, ⟨"b", "/d", "/d"⟩⟩

/-- Decision result holding itemC8a under key k. -/
def dC8a : DecisionResult := ⟨[("k", [itemC8a])], [], []⟩

/-- Decision result holding itemC8b under the same key k. -/
def dC8b : DecisionResult := ⟨[("k", [itemC8b])], [], []⟩

/-- Decision result holding itemC8a under key p. -/
def dC8w1 : DecisionResult := ⟨[("p", [itemC8a])], [], []⟩

/-- Decision result holding itemC8b under key q. -/
def dC8w2 : DecisionResult := ⟨[("q", [itemC8b])], [], []⟩

/-- Decision result with a single add item, for the progress scenario. -/
def dC9 : DecisionResult := ⟨[("", [itemC8a])], [], []⟩

/-! ## Helper lemmas -/

/-- The early-returning pattern loop is List.any. -/
theorem first_match_eq_any (regs : List RegexPat) (p : String) :
    first_match regs p = regs.any (fun r => r p) := by
  induction regs with
  | nil => rfl
  | cons r rest ih =>
    simp only [first_match, List.any_cons, ih]
    by_cases h : r p <;> simp [h]

/-- Negated any is all-negated. -/
theorem not_any_eq_all_not (l : List RegexPat) (p : String) :
    (!(l.any (fun r => r p))) = l.all (fun r => !(r p)) := by
  induction l with
  | nil => rfl
  | cons r rest ih => simp [List.any_cons, List.all_cons, Bool.not_or, ih]

/-- One side of the include-exclude decision, characterized. -/
theorem check_one_side (inc exc : List RegexPat) (p : String) :
    (if first_match inc p then true
     else if !inc.isEmpty then false
     else if first_match exc p then false else true) =
    (if inc.isEmpty then exc.all (fun r => !(r p)) else inc.any (fun r => r p)) := by
  cases inc with
  | nil =>
    simp only [first_match, List.isEmpty, Bool.not_true, if_false, if_true,
      Bool.not_false, first_match_eq_any]
    rw [← not_any_eq_all_not]
    by_cases h : exc.any (fun r => r p) <;> simp [h]
  | cons r rest =>
    simp only [List.isEmpty, Bool.not_false, if_true, if_false, first_match_eq_any]
    by_cases h : (r :: rest).any (fun x => x p) <;> simp [h]

/-- All bytes of a list zipped with itself compare equal. -/
theorem zip_self_all_beq (l : List Nat) :
    (l.zip l).all (fun p => p.1 == p.2) = true := by
  induction l with
  | nil => rfl
  | cons a rest ih => simp [List.zip_cons_cons, ih]

/-- Equal contents make is_same_file true. -/
theorem is_same_file_of_content_eq (s d : FileData) (h : s.content = d.content) :
    is_same_file s d = true := by
  simp [is_same_file, h, zip_self_all_beq]

/-! ## Claim theorems -/

/-- Claim C6 (confirmed): for every absolute path and side, the path filter
admits the path iff, when the include list of that side is non-empty, some
include pattern matches (the result is then a function of the include list
alone, so the exclude list is never consulted), and when the include list
is empty, no exclude pattern matches. -/
theorem C6_path_filter_characterization (p : String) (ctx : SyncContext)
    (d : OperateDirection) :
    _check_include_and_exclude p ctx d =
      (if (ctx.side d).include_regs.isEmpty then
        (ctx.side d).exclude_regs.all (fun r => !(r p))
      else (ctx.side d).include_regs.any (fun r => r p)) := by
  cases d <;>
    simpa only [_check_include_and_exclude, SyncContext.side] using
      check_one_side _ _ p

/-- Claim C1 (counterexample): a pair of same-named files whose
last-modification timestamps differ while the byte contents are identical is
marked unchanged by check_has_updated (no UPDATE item), although the claim
demands an UPDATE item whenever the timestamps differ. -/
theorem C1_counterexample :
    dataC1s.mtime ≠ dataC1d.mtime ∧ is_same_file dataC1s dataC1d = true ∧
    check_has_updated fsC1 srcC1 destC1 = some false := by decide

/-- Claim C1 (amended): a pair of same-named files is marked unchanged (no
UPDATE item) iff the last-modification timestamps are identical OR the byte
comparison finds no difference; an UPDATE item is produced only when both
the timestamps differ and the contents differ. -/
theorem C1_check_unchanged_iff (fs : Fs) (src dest : FileInfo) (s d : FileData)
    (hs : fileOpen fs src = some s) (hd : fileOpen fs dest = some d) :
    check_has_updated fs src dest = some false ↔
      (s.mtime = d.mtime ∨ is_same_file s d = true) := by
  have hrun : check_has_updated fs src dest
      = some ((s.mtime != d.mtime) && !(is_same_file s d)) := by
    simp [check_has_updated, hs, hd]
  rw [hrun, Option.some_inj]
  by_cases h1 : s.mtime = d.mtime <;> by_cases h2 : is_same_file s d = true <;>
    simp [h1, h2]

/-- Witness for C1_check_unchanged_iff: a concrete pair with equal
timestamps and different bytes is marked unchanged. -/
theorem C1_witness :
    fileOpen fsC1w srcC1 = some dataC1ws ∧ fileOpen fsC1w destC1 = some dataC1wd ∧
    check_has_updated fsC1w srcC1 destC1 = some false :=
  ⟨by decide, by decide,
    (C1_check_unchanged_iff fsC1w srcC1 destC1 dataC1ws dataC1wd
      (by decide) (by decide)).mpr (Or.inl (by decide))⟩

/-- Claim C7 (confirmed): for a pair of same-named files whose timestamps
differ but whose byte contents are identical, the byte comparison is reached
and finds equality, and check_has_updated reports no update. -/
theorem C7_mtime_differs_content_equal_no_update (fs : Fs) (src dest : FileInfo)
    (s d : FileData) (hs : fileOpen fs src = some s) (hd : fileOpen fs dest = some d)
    (hts : s.mtime ≠ d.mtime) (hc : s.content = d.content) :
    is_same_file s d = true ∧ check_has_updated fs src dest = some false := by
  have hsame := is_same_file_of_content_eq s d hc
  refine ⟨hsame, ?_⟩
  simp [check_has_updated, hs, hd, hsame]

/-- Witness for C7: the concrete scenario of the spec, mtime 1 versus 2 with
identical single-byte content. -/
theorem C7_witness :
    dataC7s.mtime ≠ dataC7d.mtime ∧ dataC7s.content = dataC7d.content ∧
    check_has_updated fsC7 srcC1 destC1 = some false :=
  ⟨by decide, by decide,
    (C7_mtime_differs_content_equal_no_update fsC7 srcC1 destC1 dataC7s dataC7d
      (by decide) (by decide) (by decide) (by decide)).2⟩

/-- Claim C3 (code evaluation): loading a path that does not exist fails
(fs::canonicalize errors before the dead existence check), while loading an
existing non-directory path returns the empty DirectoryInfo.  The first
conjunct exhibits the failing input, the second shows which half of the
claimed behaviour the code does implement. -/
theorem C3_missing_path_load_fails :
    fsC3 "/dst" = none ∧
    (load_all_file fsC3 1 "/dst" true "/dst" ctxEmpty OperateDirection.TO).isNone = true ∧
    (load_all_file fsC3 1 "/file.txt" true "/file.txt" ctxEmpty OperateDirection.TO).map
      (fun di => (di.root, di.absolute_dir, di.sub_dirs.length, di.files.length))
      = some ("/file.txt", "/file.txt", 0, 0) := by decide

/-- The path filter never reads the recursive flag. -/
theorem check_ctx_rec (p : String) (ctx : SyncContext) (b : Bool)
    (d : OperateDirection) :
    _check_include_and_exclude p { ctx with recursive := b } d
      = _check_include_and_exclude p ctx d := by
  cases d <;> rfl

/-- The entry loop of the loader never reads the recursive flag of the
context, and is congruent in the recursive sub-loader. -/
theorem load_entries_ctx_rec (fs : Fs) (ctx : SyncContext) (b : Bool)
    (d : OperateDirection) (recursive : Bool) (rootC canon : String)
    (s1 s2 : String → Option DirectoryInfo) (hs : ∀ q, s1 q = s2 q) :
    ∀ (names : List String) (di : DirectoryInfo),
      load_entries fs { ctx with recursive := b } d recursive rootC canon s1 names di
        = load_entries fs ctx d recursive rootC canon s2 names di := by
  intro names
  induction names with
  | nil => intro di; rfl
  | cons name rest ih =>
    intro di
    simp only [load_entries, check_ctx_rec]
    cases hchk : _check_include_and_exclude (joinPath canon name) ctx d with
    | false => simp only [Bool.not_false, if_true, ih]
    | true =>
      simp only [Bool.not_true, if_false]
      cases hfs : fs (joinPath canon name) with
      | none => exact ih _
      | some e =>
        cases e with
        | dir ch => simp only [hs, ih]
        | file dat => exact ih _

/-- load_all_file never reads the recursive flag of the context (only its
own recursive parameter and the pattern lists). -/
theorem load_all_file_ctx_rec (fs : Fs) (ctx : SyncContext) (b : Bool) :
    ∀ (fuel : Nat) (p : String) (recursive : Bool) (root : String)
      (d : OperateDirection),
      load_all_file fs fuel p recursive root { ctx with recursive := b } d
        = load_all_file fs fuel p recursive root ctx d := by
  intro fuel
  induction fuel with
  | zero => intros; rfl
  | succ fuel ih =>
    intro p recursive root d
    simp only [load_all_file, Option.bind_eq_bind]
    apply Option.bind_congr
    intro canon hcanon
    apply Option.bind_congr
    intro rootC hroot
    cases hfs : fs canon with
    | none => rfl
    | some e =>
      cases e with
      | file dat => rfl
      | dir names =>
        cases hcond : recursive && rootC.isEmpty with
        | true => rfl
        | false =>
          exact load_entries_ctx_rec fs ctx b d recursive rootC canon _ _
            (fun q => ih q recursive rootC d) names _

/-- Claim C10 (confirmed): both loader invocations of get_dict_info pass the
recursion flag as the literal true, so the loaded trees are independent of
the recursive option of the context: flipping the option never changes how
deeply the trees are loaded. -/
theorem C10_loading_ignores_recursive_option (fuel : Nat) (fs : Fs)
    (ctx : SyncContext) (b : Bool) :
    get_dict_info fuel fs { ctx with recursive := b } = get_dict_info fuel fs ctx := by
  simp only [get_dict_info, load_all_file_ctx_rec]

/-- The membership test of mapInsert equals key membership. -/
theorem any_fst_eq_keyMem {α : Type} (m : List (String × α)) (k : String) :
    m.any (fun p => p.1 == k) = keyMem (keysOf m) k := by
  induction m with
  | nil => rfl
  | cons p rest ih => simp [keyMem, keysOf, List.any_cons, ih]

/-- One insertion changes the key list by insKey. -/
theorem keysOf_mapInsert {α : Type} (m : List (String × α)) (k : String) (v : α) :
    keysOf (mapInsert m k v) = insKey (keysOf m) k := by
  simp only [mapInsert, insKey, ← any_fst_eq_keyMem]
  by_cases h : m.any (fun p => p.1 == k)
  · rw [if_pos h, if_pos h]
    simp only [keysOf, List.map_map]
    apply List.map_congr_left
    intro p hp
    by_cases hk : p.1 == k
    · simp only [Function.comp, hk, if_true]
      exact (eq_of_beq hk).symm
    · simp [Function.comp, hk]
  · rw [if_neg h, if_neg h]
    simp [keysOf]

/-- Map extension changes the key list by extKeys. -/
theorem keysOf_mapExtend {α : Type} :
    ∀ (o m : List (String × α)), keysOf (mapExtend m o) = extKeys (keysOf m) (keysOf o) := by
  intro o
  induction o with
  | nil => intro m; rfl
  | cons p rest ih =>
    intro m
    simp only [mapExtend]
    rw [ih, keysOf_mapInsert]
    rfl

/-- The key lists of a merge are a function of the key lists of the
operands. -/
theorem keys3_merge (d e : DecisionResult) :
    (d.merge e).keys3 =
      (extKeys d.keys3.1 e.keys3.1, extKeys d.keys3.2.1 e.keys3.2.1,
       extKeys d.keys3.2.2 e.keys3.2.2) := by
  simp [DecisionResult.merge, DecisionResult.keys3, keysOf_mapExtend]

/-- The subdirectory recursion loop preserves equality of key lists: two
sub-decision functions with equal key behaviour and two accumulators with
equal key lists give results with equal key lists. -/
theorem decide_subs_keys (md1 md2 : DirectoryInfo → DirectoryInfo → Option DecisionResult)
    (h : ∀ a c, (md1 a c).map DecisionResult.keys3 = (md2 a c).map DecisionResult.keys3) :
    ∀ (l : List (DirectoryInfo × DirectoryInfo)) (acc1 acc2 : DecisionResult),
      acc1.keys3 = acc2.keys3 →
      (decide_subs md1 l acc1).map DecisionResult.keys3
        = (decide_subs md2 l acc2).map DecisionResult.keys3 := by
  intro l
  induction l with
  | nil =>
    intro acc1 acc2 hacc
    simp [decide_subs, hacc]
  | cons p rest ih =>
    intro acc1 acc2 hacc
    simp only [decide_subs, Option.bind_eq_bind]
    cases h1 : md1 p.1 p.2 with
    | none =>
      cases h2 : md2 p.1 p.2 with
      | none => rfl
      | some s2 =>
        exfalso
        have hx := h p.1 p.2
        rw [h1, h2] at hx
        simp at hx
    | some s1 =>
      cases h2 : md2 p.1 p.2 with
      | none =>
        exfalso
        have hx := h p.1 p.2
        rw [h1, h2] at hx
        simp at hx
      | some s2 =>
        have hk : s1.keys3 = s2.keys3 := by
          have hx := h p.1 p.2
          rw [h1, h2] at hx
          simpa using hx
        simp only [Option.some_bind]
        apply ih
        rw [keys3_merge, keys3_merge, hacc, hk]

/-- Claim C4 (amended): the decision engine recurses into same-named
subdirectory pairs regardless of the recursive option; the three item maps
of the result carry exactly the same relative-path keys (one per visited
directory level) whether the option is false or true, so with recursive set
to false the result is not restricted to top-level items; the option only
suppresses directory ADD and DELETE items. -/
theorem C4_make_decision_keys_independent (fs : Fs) (ctx : SyncContext) (b : Bool) :
    ∀ (fuel : Nat) (from_di to_di : DirectoryInfo),
      (make_decision fs { ctx with recursive := b } fuel from_di to_di).map
          DecisionResult.keys3
      = (make_decision fs { ctx with recursive := true } fuel from_di to_di).map
          DecisionResult.keys3 := by
  intro fuel
  induction fuel with
  | zero => intros; rfl
  | succ fuel ih =>
    intro from_di to_di
    simp only [make_decision, Option.bind_eq_bind]
    cases hu : find_update fs from_di to_di with
    | none => rfl
    | some upd =>
      simp only [Option.some_bind]
      exact decide_subs_keys _ _ (fun a c => ih a c) _ _ _ rfl

/-- Claim C4 (counterexample): with recursive set to false, a source file
inside a subdirectory present on both sides still produces an ADD item at
the relative-path key of that subdirectory, so the DecisionResult holds an
item not computed at the top directory level. -/
theorem C4_counterexample :
    ctxC4.recursive = false ∧
    (make_decision fsC4 ctxC4 2 fromC4 toC4).map
      (fun d => (keysOf d.add_items, (mapLookup d.add_items "sub").map List.length))
      = some (["", "sub"], some 1) := by decide

/-- The operations logged by one execute task: the operations already
logged, then one operation per item of the task, built by its constructor. -/
theorem run_items_log_ops (total : Nat) (mk : DecisionResultItem → ExecOp) :
    ∀ (items : List DecisionResultItem) (st : ExecState),
      (run_items total mk items st).log.map Prod.snd
        = st.log.map Prod.snd ++ items.map mk := by
  intro items
  induction items with
  | nil => intro st; simp [run_items]
  | cons it rest ih =>
    intro st
    simp [run_items, log_progress, count_and_progress, ih, List.map_append]

/-- dropWhile over a prefix all of whose elements satisfy the predicate. -/
theorem dropWhile_append_of_all {α : Type} (p : α → Bool) :
    ∀ (l1 l2 : List α), (∀ x ∈ l1, p x = true) →
      (l1 ++ l2).dropWhile p = l2.dropWhile p := by
  intro l1
  induction l1 with
  | nil => intro l2 h; rfl
  | cons a rest ih =>
    intro l2 h
    have ha : p a = true := h a (by simp)
    simp only [List.cons_append, List.dropWhile_cons, ha, if_true]
    exact ih l2 (fun x hx => h x (by simp [hx]))

/-- dropWhile over a list none of whose elements satisfies the predicate. -/
theorem dropWhile_eq_self_of_all_not {α : Type} (p : α → Bool) (l : List α)
    (h : ∀ x ∈ l, p x = false) : l.dropWhile p = l := by
  cases l with
  | nil => rfl
  | cons a rest => simp [List.dropWhile_cons, h a (by simp)]

/-- Claim C2 (confirmed): the execution trace of any DecisionResult applies
all add-task operations first, then all update-task operations, then all
del-task operations: after dropping the leading add copies and then the
leading update copies, only removals remain, so no DELETE is executed
before any ADD or UPDATE across the whole run. -/
theorem C2_execute_phase_order (d : DecisionResult) :
    ((((DecisionExecuteTask.execute d).log.map Prod.snd).dropWhile
        ExecOp.isAddCopy).dropWhile ExecOp.isUpdateCopy).all ExecOp.isRemove = true := by
  have hops : (DecisionExecuteTask.execute d).log.map Prod.snd
      = (itemsOfMap d.add_items).map (fun it => ExecOp.copy it false)
        ++ ((itemsOfMap d.update_items).map (fun it => ExecOp.copy it true)
          ++ (itemsOfMap d.del_items).map (fun it => ExecOp.remove it)) := by
    simp [DecisionExecuteTask.execute, execute_add_task, execute_update_task,
      execute_del_task, run_items_log_ops, List.append_assoc]
  rw [hops]
  rw [dropWhile_append_of_all ExecOp.isAddCopy _ _ ?hadd]
  case hadd =>
    intro x hx
    rcases List.mem_map.mp hx with ⟨it, hit, rfl⟩
    rfl
  rw [dropWhile_eq_self_of_all_not ExecOp.isAddCopy _ ?hrest]
  case hrest =>
    intro x hx
    rcases List.mem_append.mp hx with hx | hx <;>
      rcases List.mem_map.mp hx with ⟨it, hit, rfl⟩ <;> rfl
  rw [dropWhile_append_of_all ExecOp.isUpdateCopy _ _ ?hupd]
  case hupd =>
    intro x hx
    rcases List.mem_map.mp hx with ⟨it, hit, rfl⟩
    rfl
  rw [dropWhile_eq_self_of_all_not ExecOp.isUpdateCopy _ ?hdel]
  case hdel =>
    intro x hx
    rcases List.mem_map.mp hx with ⟨it, hit, rfl⟩
    rfl
  simp only [List.all_eq_true]
  intro x hx
  rcases List.mem_map.mp hx with ⟨it, hit, rfl⟩
  rfl

/-- Closed form of one execute task: the counter advances by the item count
and the log gains one entry per item, labelled with the counter value at the
time of its fetch_add, starting from the entry counter value. -/
theorem run_items_closed (total : Nat) (mk : DecisionResultItem → ExecOp) :
    ∀ (items : List DecisionResultItem) (st : ExecState),
      run_items total mk items st
        = ⟨st.processed + items.length,
           st.log ++ (items.enumFrom st.processed).map
             (fun pr => (progress_label pr.1 total, mk pr.2))⟩ := by
  intro items
  induction items with
  | nil => intro st; simp [run_items]
  | cons it rest ih =>
    intro st
    simp only [run_items, log_progress, count_and_progress, ih, List.enumFrom,
      List.map_cons, List.length_cons]
    congr 1
    · omega
    · simp [List.append_assoc]

/-- The total item count equals the summed lengths of the three flattened
item lists. -/
theorem total_count_eq (d : DecisionResult) :
    d.total_count = (itemsOfMap d.add_items).length
      + (itemsOfMap d.update_items).length + (itemsOfMap d.del_items).length := by
  simp only [DecisionResult.total_count, items_count, itemsOfMap,
    List.length_flatten, List.map_map]
  have h1 : ∀ (m : List (String × List DecisionResultItem)),
      (m.map (List.length ∘ fun p => p.2)).sum = (m.map (fun p => p.2.length)).sum := by
    intro m; rfl
  rw [h1, h1, h1]
  omega

/-- The label of every enumerated entry is its index label. -/
theorem enumFrom_labels (total : Nat) :
    ∀ (l : List DecisionResultItem) (n : Nat),
      (l.enumFrom n).map (fun pr => progress_label pr.1 total)
        = (List.range' n l.length).map (fun i => progress_label i total) := by
  intro l
  induction l with
  | nil => intro n; rfl
  | cons it rest ih =>
    intro n
    simp [List.enumFrom, List.range', ih (n + 1)]

/-- Appending consecutive ranges. -/
theorem range'_append_consec (s m n : Nat) :
    List.range' s m ++ List.range' (s + m) n = List.range' s (m + n) := by
  have h := List.range'_append s m n 1
  rw [Nat.one_mul, Nat.add_comm n m] at h
  exact h

/-- Claim C9 (amended): during execution the shared counter is incremented
exactly once per item (the final counter value equals the up-front total),
and the label printed for the n-th executed item (1-based) is the previous
counter value over the total, that is (n-1)/total: the label list is exactly
0/total, 1/total, ... ((total-1)/total). -/
theorem C9_progress_labels (d : DecisionResult) :
    (DecisionExecuteTask.execute d).processed = d.total_count ∧
    (DecisionExecuteTask.execute d).log.map Prod.fst
      = (List.range d.total_count).map (fun i => progress_label i d.total_count) := by
  have hexec : DecisionExecuteTask.execute d
      = ⟨(itemsOfMap d.add_items).length + (itemsOfMap d.update_items).length
          + (itemsOfMap d.del_items).length,
         ((itemsOfMap d.add_items).enumFrom 0).map
             (fun pr => (progress_label pr.1 d.total_count, ExecOp.copy pr.2 false))
           ++ (((itemsOfMap d.update_items).enumFrom
                  (itemsOfMap d.add_items).length).map
               (fun pr => (progress_label pr.1 d.total_count, ExecOp.copy pr.2 true))
             ++ ((itemsOfMap d.del_items).enumFrom
                  ((itemsOfMap d.add_items).length
                    + (itemsOfMap d.update_items).length)).map
               (fun pr => (progress_label pr.1 d.total_count, ExecOp.remove pr.2)))⟩ := by
    simp [DecisionExecuteTask.execute, execute_add_task, execute_update_task,
      execute_del_task, run_items_closed, List.append_assoc]
  constructor
  · rw [hexec]
    exact (total_count_eq d).symm
  · rw [hexec]
    simp only [List.map_append, List.map_map]
    have hc : ∀ (g : Nat × DecisionResultItem → String × ExecOp)
        (l : List DecisionResultItem) (n : Nat),
        (∀ pr, (g pr).1 = progress_label pr.1 d.total_count) →
        (l.enumFrom n).map (Prod.fst ∘ g)
          = (List.range' n l.length).map (fun i => progress_label i d.total_count) := by
      intro g l n hg
      have hcg : (l.enumFrom n).map (Prod.fst ∘ g)
          = (l.enumFrom n).map (fun pr => progress_label pr.1 d.total_count) :=
        List.map_congr_left (fun pr _ => hg pr)
      rw [hcg, enumFrom_labels]
    have hca := hc (fun pr => (progress_label pr.1 d.total_count, ExecOp.copy pr.2 false))
      (itemsOfMap d.add_items) 0 (fun pr => rfl)
    have hcu := hc (fun pr => (progress_label pr.1 d.total_count, ExecOp.copy pr.2 true))
      (itemsOfMap d.update_items) (itemsOfMap d.add_items).length (fun pr => rfl)
    have hcd := hc (fun pr => (progress_label pr.1 d.total_count, ExecOp.remove pr.2))
      (itemsOfMap d.del_items)
      ((itemsOfMap d.add_items).length + (itemsOfMap d.update_items).length)
      (fun pr => rfl)
    rw [hca, hcu, hcd, ← List.map_append, ← List.map_append, range'_append_consec]
    have hall := range'_append_consec 0 (itemsOfMap d.add_items).length
      ((itemsOfMap d.update_items).length + (itemsOfMap d.del_items).length)
    rw [Nat.zero_add] at hall
    rw [hall, List.range_eq_range', total_count_eq d, Nat.add_assoc]

/-- Claim C9 (counterexample): a run with a single item prints the label
0/1 for its first (n equal to 1) executed item, not 1/1. -/
theorem C9_counterexample :
    (DecisionExecuteTask.execute dC9).log.map Prod.fst = ["0/1"] ∧
    "0/1" ≠ "1/1" := by decide

/-- Key membership as list membership. -/
theorem keyMem_iff_mem (ks : List String) (k : String) :
    keyMem ks k = true ↔ k ∈ ks := by
  constructor
  · intro h
    simp only [keyMem, List.any_eq_true, beq_iff_eq] at h
    obtain ⟨x, hx, he⟩ := h
    exact he ▸ hx
  · intro h
    simp only [keyMem, List.any_eq_true, beq_iff_eq]
    exact ⟨k, h, rfl⟩

/-- Key non-membership as list non-membership. -/
theorem keyMem_eq_false_iff (ks : List String) (k : String) :
    keyMem ks k = false ↔ k ∉ ks := by
  rw [← keyMem_iff_mem ks k]
  cases keyMem ks k <;> simp

/-- Boolean key disjointness as a membership statement. -/
theorem disjointKeysB_iff {α : Type} (m o : List (String × α)) :
    disjointKeysB m o = true ↔ ∀ k ∈ keysOf o, k ∉ keysOf m := by
  simp [disjointKeysB, List.all_eq_true, keyMem_eq_false_iff]

/-- Extending by a key-disjoint, duplicate-free map is list append: no
binding of either operand is dropped. -/
theorem mapExtend_eq_append {α : Type} :
    ∀ (o m : List (String × α)), disjointKeysB m o = true → nodupKeysB o = true →
      mapExtend m o = m ++ o := by
  intro o
  induction o with
  | nil => intro m _ _; simp [mapExtend]
  | cons p rest ih =>
    intro m hdisj hnodup
    rw [disjointKeysB_iff] at hdisj
    have hp : p.1 ∉ keysOf m := hdisj p.1 (by simp [keysOf])
    have hrest : ∀ k ∈ keysOf rest, k ∉ keysOf m := by
      intro k hk
      exact hdisj k (by simp [keysOf] at hk ⊢; exact Or.inr hk)
    have hnp : keyMem (keysOf rest) p.1 = false := by
      have := hnodup
      simp only [nodupKeysB, keysOf, List.map_cons, nodupB, Bool.and_eq_true,
        Bool.not_eq_true'] at this
      exact this.1
    have hnrest : nodupKeysB rest = true := by
      have := hnodup
      simp only [nodupKeysB, keysOf, List.map_cons, nodupB, Bool.and_eq_true] at this
      exact this.2
    have hmem : ¬ (m.any (fun q => q.1 == p.1) = true) := by
      rw [any_fst_eq_keyMem, keyMem_iff_mem]
      exact hp
    have hins : mapInsert m p.1 p.2 = m ++ [(p.1, p.2)] := by
      rw [mapInsert, if_neg hmem]
    have hd2 : disjointKeysB (m ++ [(p.1, p.2)]) rest = true := by
      rw [disjointKeysB_iff]
      intro k hk
      simp only [keysOf, List.map_append, List.map_cons, List.map_nil, List.mem_append,
        List.mem_singleton]
      rintro (hkm | hkp)
      · exact hrest k hk hkm
      · rw [keyMem_eq_false_iff] at hnp
        exact hnp (hkp ▸ hk)
    simp only [mapExtend]
    rw [hins, ih (m ++ [(p.1, p.2)]) hd2 hnrest, List.append_assoc, List.singleton_append]

/-- Item counts add over list append. -/
theorem items_count_append (m o : List (String × List DecisionResultItem)) :
    items_count (m ++ o) = items_count m + items_count o := by
  simp [items_count, List.map_append, List.sum_append]

/-- Claim C8 (amended): merging preserves every item of both operands and
the merged total_count is the sum of the totals exactly when the two
operands share no relative-path key in any of the three maps (and the right
operand is duplicate-free, as every HashMap is); when both operands hold
entries under the same key, the left entry is dropped, as the counterexample
shows. -/
theorem C8_merge_disjoint_preserves (d1 d2 : DecisionResult)
    (ha : disjointKeysB d1.add_items d2.add_items = true)
    (hna : nodupKeysB d2.add_items = true)
    (hd : disjointKeysB d1.del_items d2.del_items = true)
    (hnd : nodupKeysB d2.del_items = true)
    (hu : disjointKeysB d1.update_items d2.update_items = true)
    (hnu : nodupKeysB d2.update_items = true) :
    d1.merge d2 = ⟨d1.add_items ++ d2.add_items, d1.del_items ++ d2.del_items,
      d1.update_items ++ d2.update_items⟩ ∧
    (d1.merge d2).total_count = d1.total_count + d2.total_count := by
  have h1 := mapExtend_eq_append d2.add_items d1.add_items ha hna
  have h2 := mapExtend_eq_append d2.del_items d1.del_items hd hnd
  have h3 := mapExtend_eq_append d2.update_items d1.update_items hu hnu
  constructor
  · simp [DecisionResult.merge, h1, h2, h3]
  · simp only [DecisionResult.merge, h1, h2, h3, DecisionResult.total_count,
      items_count_append]
    omega

/-- Claim C8 (counterexample): two DecisionResults holding one add item each
under the same key k merge into a single-item result: the left operand entry
is silently dropped and total_count is 1, not the sum 2. -/
theorem C8_counterexample :
    DecisionResult.total_count (DecisionResult.merge dC8a dC8b) = 1 ∧
    DecisionResult.total_count dC8a + DecisionResult.total_count dC8b = 2 ∧
    mapLookup (DecisionResult.merge dC8a dC8b).add_items "k" = some [itemC8b] := by decide

/-- Witness for C8_merge_disjoint_preserves: two single-entry results with
distinct keys merge without loss. -/
theorem C8_witness :
    disjointKeysB dC8w1.add_items dC8w2.add_items = true ∧
    (DecisionResult.merge dC8w1 dC8w2).total_count
      = dC8w1.total_count + dC8w2.total_count :=
  ⟨by decide,
    (C8_merge_disjoint_preserves dC8w1 dC8w2 (by decide) (by decide) (by decide)
      (by decide) (by decide) (by decide)).2⟩

/-- Reading back the updated path. -/
theorem World.set_get (w : World) (p : String) (e : Option Entry) :
    (w.set p e).fs p = e := by
  simp [World.set]

/-- Reading any other path. -/
theorem World.set_get_ne (w : World) (p q : String) (e : Option Entry)
    (h : q ≠ p) : (w.set p e).fs q = w.fs q := by
  simp [World.set, h]

/-- Claim C5 (amended): when the copied item itself is a regular file — as
an ADD onto an absent destination, or as an UPDATE overwriting an existing
destination file — the destination ends up with the byte content, the
last-access time and the last-modification time of the source.  (Files
nested inside a copied directory are copied without the copy_time call, as
the counterexample shows.) -/
theorem C5_file_copy_round_trip (fuel : Nat) (w : World) (src dst : String)
    (overwrite : Bool) (d : FileData) (hsrc : w.fs src = some (Entry.file d))
    (hne : src ≠ dst)
    (hdst : w.fs dst = none ∨
      (overwrite = true ∧ ∃ d2, w.fs dst = some (Entry.file d2))) :
    (copy_recursively (fuel + 1) w src dst overwrite).map (fun w2 => w2.fs dst)
      = some (some (Entry.file d)) := by
  have hisf : is_file w src = true := by simp [is_file, hsrc]
  rcases hdst with hnone | ⟨hov, d2, hd2⟩
  · have hex : exists_path w dst = false := by simp [exists_path, hnone]
    simp only [copy_recursively, hisf, if_true, hex, Bool.false_and, Bool.not_false,
      if_false, Option.bind_eq_bind]
    have hcopy : fs_copy w src dst
        = some (w.set dst (some (Entry.file ⟨w.now, w.now, d.content⟩))) := by
      simp [fs_copy, hsrc, hnone]
    rw [hcopy, Option.some_bind]
    have h1 : (w.set dst (some (Entry.file ⟨w.now, w.now, d.content⟩))).fs src
        = some (Entry.file d) := by
      rw [World.set_get_ne w dst src _ hne]
      exact hsrc
    have hct : copy_time (w.set dst (some (Entry.file ⟨w.now, w.now, d.content⟩))) src dst
        = some ((w.set dst (some (Entry.file ⟨w.now, w.now, d.content⟩))).set dst
            (some (Entry.file ⟨d.atime, d.mtime, d.content⟩))) := by
      simp [copy_time, h1, World.set_get]
    rw [hct]
    simp [World.set_get]
  · have hex : exists_path w dst = true := by simp [exists_path, hd2]
    simp only [copy_recursively, hisf, if_true, hex, hov, Bool.and_self,
      Option.bind_eq_bind]
    have hrm : remove_file w dst = some (w.set dst none) := by
      simp [remove_file, hd2]
    rw [hrm, Option.some_bind]
    have h1 : (w.set dst none).fs src = some (Entry.file d) := by
      rw [World.set_get_ne w dst src _ hne]
      exact hsrc
    have hcopy : fs_copy (w.set dst none) src dst
        = some ((w.set dst none).set dst
            (some (Entry.file ⟨w.now, w.now, d.content⟩))) := by
      simp [fs_copy, h1, World.set_get]
      rfl
    rw [hcopy, Option.some_bind]
    have h2 : ((w.set dst none).set dst
        (some (Entry.file ⟨w.now, w.now, d.content⟩))).fs src = some (Entry.file d) := by
      rw [World.set_get_ne _ dst src _ hne, World.set_get_ne _ dst src _ hne]
      exact hsrc
    have hct : copy_time ((w.set dst none).set dst
          (some (Entry.file ⟨w.now, w.now, d.content⟩))) src dst
        = some (((w.set dst none).set dst
            (some (Entry.file ⟨w.now, w.now, d.content⟩))).set dst
            (some (Entry.file ⟨d.atime, d.mtime, d.content⟩))) := by
      simp [copy_time, h2, World.set_get]
    rw [hct]
    simp [World.set_get]

/-- Claim C5 (counterexample): a file nested inside a copied directory is
copied by the plain fs::copy call without copy_time: the destination file
gets the clock timestamps (99), not the source timestamps (atime 5,
mtime 6), so timestamps are not preserved for nested files. -/
theorem C5_counterexample :
    wC5.fs "/s/a" = some (Entry.file ⟨5, 6, [1]⟩) ∧
    (copy_recursively 2 wC5 "/s" "/d" false).map (fun w2 => w2.fs "/d/a")
      = some (some (Entry.file ⟨99, 99, [1]⟩)) ∧
    (99 ≠ 6) := by decide

/-- Witness for C5_file_copy_round_trip: copying the single file /x to the
absent /y transfers content and both timestamps. -/
theorem C5_witness :
    wC5w.fs "/x" = some (Entry.file dC5w) ∧
    (copy_recursively 1 wC5w "/x" "/y" false).map (fun w2 => w2.fs "/y")
      = some (some (Entry.file dC5w)) :=
  ⟨by decide,
    C5_file_copy_round_trip 0 wC5w "/x" "/y" false dC5w (by decide) (by decide)
      (Or.inl (by decide))⟩
